import Mathlib

/-!
Verification of the Selective Repeat ARQ simulator
(src/03_selective_repeat_arq/sr_arq_simulator.py).

The Python program is embedded shallowly:

* the class `SelectiveRepeatARQ` becomes a structure of the same name
  holding `total_frames`, `window_size`, `base`, `next_seq_num` and the
  `ack_received` table;
* `receive_ack` becomes a pure function returning the updated state and
  the list of emitted events; Python list indexing (negative indices,
  IndexError on out-of-range access) is modelled by `pyIdx`, so the
  function returns an `Option` that is `none` exactly when the Python
  code would raise;
* the window-slide `while` loop of `receive_ack` becomes `slideBase`;
* `send_frame` becomes a pure function over an explicit stream of random
  draws (one rational draw per call to the random source), so the order
  and number of draws is part of the semantics;
* a whole run (the `run` loop with its concurrent sender threads and
  timers, all of whose mutations of shared state are serialized by
  `self.lock`) becomes a labelled transition system `sysStep` on `Sys`
  states: one label per lock-protected atomic action (admitting the next
  frame, a channel loss, a channel delivery of an ack, a timer expiry),
  with `Reachable` the set of states of a run.
-/

namespace SRARQ

/-! ### Configuration constants (source lines 17-24) -/

def TOTAL_FRAMES : Nat := 10

def WINDOW_SIZE : Nat := 4

def LOSS_PROBABILITY : ℚ := 2/10

def REORDER_PROBABILITY : ℚ := 2/10

def TIMEOUT : ℚ := 2

def DELAY_LO : ℚ := 5/10

def DELAY_HI : ℚ := 15/10

/-! ### Events (the print statements of the simulator) -/

/-- One observable event per print statement in the simulator: `send` for
the run loop dispatch, `loss` and `reorder` in `send_frame`, `ack` in
`receive_ack` (carrying the argument as printed, hence an `Int`), and
`timeout` for the retransmission message in `start_timer`. -/
inductive Event where
  | send (seq : Nat)
  | loss (seq : Nat)
  | reorder (seq : Nat)
  | ack (seq : Int)
  | timeout (seq : Nat)
deriving DecidableEq, Repr

/-! ### The window core state -/

/-- The mutable fields of the Python class `SelectiveRepeatARQ`. -/
structure SelectiveRepeatARQ where
  total_frames : Nat
  window_size : Nat
  base : Nat
  next_seq_num : Nat
  ack_received : List Bool
deriving DecidableEq, Repr

/-- The constructor `SelectiveRepeatARQ.__init__` (source lines 37-43): it
stores the two parameters and unconditionally creates `base = 0`,
`next_seq_num = 0` and an all-`False` ack table; it performs no
validation of any kind. -/
def init (total_frames window_size : Nat) : SelectiveRepeatARQ :=
  ⟨total_frames, window_size, 0, 0, List.replicate total_frames false⟩

/-- Python list indexing for a list of length `len`: index `i` with
`0 ≤ i < len` is used as is, `-len ≤ i < 0` addresses `len + i`, and
anything else raises IndexError (modelled as `none`). -/
def pyIdx (len : Nat) (i : Int) : Option Nat :=
  if 0 ≤ i ∧ i < (len : Int) then some i.toNat
  else if -(len : Int) ≤ i ∧ i < 0 then some ((len : Int) + i).toNat
  else none

/-- The window-slide loop of `receive_ack` (source lines 80-81), with an
explicit structural fuel:
`while self.base < self.total_frames and self.ack_received[self.base]:
self.base += 1`. -/
def slideBaseAux (ack : List Bool) (total_frames : Nat) : Nat → Nat → Nat
  | 0, base => base
  | fuel + 1, base =>
    if base < total_frames ∧ ack.getD base false = true then
      slideBaseAux ack total_frames fuel (base + 1)
    else base

/-- The window-slide loop of `receive_ack`: fuel `total_frames - base`
suffices because each iteration requires `base < total_frames` and
increments `base`. -/
def slideBase (ack : List Bool) (total_frames base : Nat) : Nat :=
  slideBaseAux ack total_frames (total_frames - base) base

/-- `SelectiveRepeatARQ.receive_ack` (source lines 72-81).  Under the
lock: if the table entry for `seq_num` is still false, set it, print the
ack message, and slide the window; otherwise do nothing.  The unguarded
table accesses use Python indexing, so the result is `none` exactly when
the Python code raises IndexError. -/
def receive_ack (s : SelectiveRepeatARQ) (seq_num : Int) :
    Option (SelectiveRepeatARQ × List Event) :=
  match pyIdx s.ack_received.length seq_num with
  | none => none
  | some j =>
    if s.ack_received.getD j false = true then some (s, [])
    else
      let ack := s.ack_received.set j true
      some (⟨s.total_frames, s.window_size,
             slideBase ack s.total_frames s.base, s.next_seq_num, ack⟩,
            [Event.ack seq_num])

/-! ### The channel impairment model -/

/-- Result of one `send_frame` attempt: either the frame is lost, or after
`delay` time units (`reordered` records whether the extra reorder delay
was added) an ack carrying `ackSeq` is delivered to `receive_ack`. -/
inductive SendOutcome where
  | lost
  | delivered (delay : ℚ) (reordered : Bool) (ackSeq : Nat)
deriving DecidableEq, Repr

/-- `random.uniform(a, b) = a + (b - a) * random.random()` applied to one
draw `u` from the random source. -/
def uniformDraw (a b u : ℚ) : ℚ := a + (b - a) * u

/-- `SelectiveRepeatARQ.send_frame` (source lines 45-60) over an explicit
stream of draws from the random source, consumed in the source order:
first `random.uniform(*DELAY_RANGE)` for the base delay, then
`random.random()` for the loss decision, then (only if not lost)
`random.random()` for the reorder decision and possibly
`random.uniform(1.0, 2.0)` for the extra delay; finally
`receive_ack(frame.seq_num)` is invoked after the delay.  `none` means
the stream was exhausted (never happens with a real random source). -/
def send_frame (seq : Nat) (rng : List ℚ) : Option (SendOutcome × List ℚ) :=
  match rng with
  | [] => none
  | u1 :: rng1 =>
    let delay := uniformDraw DELAY_LO DELAY_HI u1
    match rng1 with
    | [] => none
    | p1 :: rng2 =>
      if p1 < LOSS_PROBABILITY then some (SendOutcome.lost, rng2)
      else
        match rng2 with
        | [] => none
        | p2 :: rng3 =>
          if p2 < REORDER_PROBABILITY then
            match rng3 with
            | [] => none
            | u2 :: rng4 =>
              some (SendOutcome.delivered (delay + uniformDraw 1 2 u2) true seq, rng4)
          else some (SendOutcome.delivered delay false seq, rng3)

/-- The channel transmit contract as worded in the specification, for
comparison with `send_frame`: the loss decision is drawn first and a lost
attempt makes no further draws; otherwise the base delay, the reorder
decision and possibly the extra delay are drawn. -/
def send_frame_specOrder (seq : Nat) (rng : List ℚ) :
    Option (SendOutcome × List ℚ) :=
  match rng with
  | [] => none
  | p1 :: rng1 =>
    if p1 < LOSS_PROBABILITY then some (SendOutcome.lost, rng1)
    else
      match rng1 with
      | [] => none
      | u1 :: rng2 =>
        let delay := uniformDraw DELAY_LO DELAY_HI u1
        match rng2 with
        | [] => none
        | p2 :: rng3 =>
          if p2 < REORDER_PROBABILITY then
            match rng3 with
            | [] => none
            | u2 :: rng4 =>
              some (SendOutcome.delivered (delay + uniformDraw 1 2 u2) true seq, rng4)
          else some (SendOutcome.delivered delay false seq, rng3)

/-! ### A whole run as a labelled transition system -/

/-- Global state of a run: the shared window core object plus the
in-flight channel attempts (spawned `send_frame` threads that have not
yet delivered or dropped) and the armed timers, both identified by their
sequence number. -/
structure Sys where
  arq : SelectiveRepeatARQ
  inflight : List Nat
  timers : List Nat
deriving DecidableEq, Repr

/-- Initial state of a run: a freshly constructed window core, no
in-flight frames, no timers. -/
def initSys (total_frames window_size : Nat) : Sys :=
  ⟨init total_frames window_size, [], []⟩

/-- One label per lock-protected atomic action of the simulator:
`sendNext` is one iteration of the inner admission loop of `run` (source
lines 90-95), `lose` is a `send_frame` thread dropping its frame (line
50-52), `deliver` is a `send_frame` thread delivering its ack (line 60),
`expire` is a timer thread running its expiry check (lines 64-69). -/
inductive Label where
  | sendNext
  | lose (seq : Nat)
  | deliver (seq : Nat)
  | expire (seq : Nat)

/-- The transition function of a run.  `sendNext` admits frame
`next_seq_num` when the window has room (guard of source line 90),
spawning a channel attempt and arming a timer for it; `lose seq` removes
an in-flight attempt with the loss message; `deliver seq` removes an
in-flight attempt and runs `receive_ack seq`; `expire seq` removes an
armed timer and, only if the ack table entry for `seq` is still false,
prints the timeout message and spawns a retransmission channel attempt —
without arming a new timer, since `timer_thread` (source lines 64-69)
never calls `start_timer`. -/
def sysStep (s : Sys) : Label → Option (Sys × List Event)
  | Label.sendNext =>
    if s.arq.next_seq_num < s.arq.base + s.arq.window_size ∧
        s.arq.next_seq_num < s.arq.total_frames then
      some (⟨⟨s.arq.total_frames, s.arq.window_size, s.arq.base,
              s.arq.next_seq_num + 1, s.arq.ack_received⟩,
             s.arq.next_seq_num :: s.inflight,
             s.arq.next_seq_num :: s.timers⟩,
            [Event.send s.arq.next_seq_num])
    else none
  | Label.lose seq =>
    if seq ∈ s.inflight then
      some (⟨s.arq, s.inflight.erase seq, s.timers⟩, [Event.loss seq])
    else none
  | Label.deliver seq =>
    if seq ∈ s.inflight then
      match receive_ack s.arq (seq : Int) with
      | none => none
      | some (a, ev) => some (⟨a, s.inflight.erase seq, s.timers⟩, ev)
    else none
  | Label.expire seq =>
    if seq ∈ s.timers then
      if s.arq.ack_received.getD seq false = true then
        some (⟨s.arq, s.inflight, s.timers.erase seq⟩, [])
      else
        some (⟨s.arq, seq :: s.inflight, s.timers.erase seq⟩,
              [Event.timeout seq])
    else none

/-- The reachable states of a run with the given configuration. -/
inductive Reachable (total_frames window_size : Nat) : Sys → Prop where
  | start : Reachable total_frames window_size (initSys total_frames window_size)
  | step {s : Sys} {l : Label} {s2 : Sys} {ev : List Event} :
      Reachable total_frames window_size s →
      sysStep s l = some (s2, ev) →
      Reachable total_frames window_size s2

/-- `b` is the smallest index of `ack` holding `false`, or `n` when all
`n` entries are true (the characterization of `base` given in the specification). -/
def IsLeastFalse (ack : List Bool) (n b : Nat) : Prop :=
  b ≤ n ∧ (∀ i, i < b → ack.getD i false = true) ∧
    (b < n → ack.getD b false = false)

/-! ### List helper lemmas -/

lemma getD_set_self (l : List Bool) (j : Nat) (b d : Bool) (h : j < l.length) :
    (l.set j b).getD j d = b := by
  induction l generalizing j with
  | nil => simp at h
  | cons x xs ih =>
    cases j with
    | zero => rfl
    | succ j =>
      simp only [List.set, List.getD, List.getElem?_cons_succ]
      exact ih j (by simpa using h)

lemma getD_set_ne (l : List Bool) (j i : Nat) (b d : Bool) (hne : j ≠ i) :
    (l.set j b).getD i d = l.getD i d := by
  induction l generalizing j i with
  | nil => rfl
  | cons x xs ih =>
    cases j with
    | zero =>
      cases i with
      | zero => exact absurd rfl hne
      | succ i => rfl
    | succ j =>
      cases i with
      | zero => rfl
      | succ i =>
        simp only [List.set, List.getD, List.getElem?_cons_succ]
        exact ih j i (by omega)

lemma getD_replicate (n i : Nat) :
    (List.replicate n false).getD i false = false := by
  induction n generalizing i with
  | zero => rfl
  | succ n ih =>
    cases i with
    | zero => rfl
    | succ i =>
      simp only [List.replicate, List.getD, List.getElem?_cons_succ]
      exact ih i

lemma getD_set_true_of_true (l : List Bool) (j i : Nat) (hj : j < l.length)
    (h : l.getD i false = true) : (l.set j true).getD i false = true := by
  rcases eq_or_ne j i with rfl | hne
  · exact getD_set_self l j true false hj
  · rw [getD_set_ne l j i true false hne]; exact h

/-! ### pyIdx lemmas -/

lemma pyIdx_natCast (len q : Nat) (h : q < len) :
    pyIdx len (q : Int) = some q := by
  simp only [pyIdx]
  rw [if_pos ⟨Int.natCast_nonneg q, by exact_mod_cast h⟩, Int.toNat_natCast]

lemma pyIdx_lt {len : Nat} {i : Int} {j : Nat} (h : pyIdx len i = some j) :
    j < len := by
  simp only [pyIdx] at h
  split at h
  · next hle =>
    rw [Option.some_inj] at h
    omega
  · split at h
    · next hneg =>
      rw [Option.some_inj] at h
      omega
    · exact absurd h (by simp)

lemma pyIdx_neg (len : Nat) (i : Int) (h0 : -(len : Int) ≤ i) (h1 : i < 0) :
    pyIdx len i = some ((len : Int) + i).toNat := by
  simp only [pyIdx]
  rw [if_neg (by omega), if_pos ⟨h0, h1⟩]

lemma pyIdx_ge (len : Nat) (i : Int) (h : (len : Int) ≤ i) :
    pyIdx len i = none := by
  simp only [pyIdx]
  rw [if_neg (by omega), if_neg (by omega)]

/-! ### slideBase lemmas -/

lemma slideBaseAux_ge (ack : List Bool) (t : Nat) :
    ∀ fuel b, b ≤ slideBaseAux ack t fuel b := by
  intro fuel
  induction fuel with
  | zero => intro b; exact Nat.le_refl b
  | succ fuel ih =>
    intro b
    simp only [slideBaseAux]
    split
    · exact Nat.le_trans (Nat.le_succ b) (ih (b + 1))
    · exact Nat.le_refl b

lemma slideBaseAux_le (ack : List Bool) (t : Nat) :
    ∀ fuel b, b ≤ t → slideBaseAux ack t fuel b ≤ t := by
  intro fuel
  induction fuel with
  | zero => intro b hb; exact hb
  | succ fuel ih =>
    intro b hb
    simp only [slideBaseAux]
    split
    · next h => exact ih (b + 1) h.1
    · exact hb

lemma slideBaseAux_stop (ack : List Bool) (t : Nat) :
    ∀ fuel b, t - b ≤ fuel → slideBaseAux ack t fuel b < t →
      ack.getD (slideBaseAux ack t fuel b) false = false := by
  intro fuel
  induction fuel with
  | zero =>
    intro b hfuel hlt
    simp only [slideBaseAux] at hlt ⊢
    omega
  | succ fuel ih =>
    intro b hfuel hlt
    simp only [slideBaseAux] at hlt ⊢
    split
    · next h =>
      rw [if_pos h] at hlt
      exact ih (b + 1) (by omega) hlt
    · next h =>
      rw [if_neg h] at hlt
      rcases Bool.eq_false_or_eq_true (ack.getD b false) with hT | hF
      · exact absurd ⟨hlt, hT⟩ h
      · exact hF

lemma slideBaseAux_interval (ack : List Bool) (t : Nat) :
    ∀ fuel b i, b ≤ i → i < slideBaseAux ack t fuel b →
      ack.getD i false = true := by
  intro fuel
  induction fuel with
  | zero =>
    intro b i hbi hi
    simp only [slideBaseAux] at hi
    omega
  | succ fuel ih =>
    intro b i hbi hi
    simp only [slideBaseAux] at hi
    split at hi
    · next h =>
      rcases Nat.eq_or_lt_of_le hbi with rfl | hlt
      · exact h.2
      · exact ih (b + 1) i hlt hi
    · omega

lemma slideBaseAux_le_of_false (ack : List Bool) (t m : Nat)
    (hm : ack.getD m false = false) :
    ∀ fuel b, b ≤ m → slideBaseAux ack t fuel b ≤ m := by
  intro fuel
  induction fuel with
  | zero => intro b hb; exact hb
  | succ fuel ih =>
    intro b hb
    simp only [slideBaseAux]
    split
    · next h =>
      apply ih (b + 1)
      rcases Nat.eq_or_lt_of_le hb with rfl | hlt
      · rw [hm] at h; exact absurd h.2 (by simp)
      · exact hlt
    · exact hb

lemma slideBase_ge (ack : List Bool) (t b : Nat) : b ≤ slideBase ack t b :=
  slideBaseAux_ge ack t (t - b) b

lemma slideBase_le (ack : List Bool) (t b : Nat) (hb : b ≤ t) :
    slideBase ack t b ≤ t :=
  slideBaseAux_le ack t (t - b) b hb

lemma slideBase_stop (ack : List Bool) (t b : Nat)
    (h : slideBase ack t b < t) :
    ack.getD (slideBase ack t b) false = false :=
  slideBaseAux_stop ack t (t - b) b (Nat.le_refl _) h

lemma slideBase_interval (ack : List Bool) (t b i : Nat) (hbi : b ≤ i)
    (hi : i < slideBase ack t b) : ack.getD i false = true :=
  slideBaseAux_interval ack t (t - b) b i hbi hi

lemma slideBase_le_of_false (ack : List Bool) (t m b : Nat)
    (hm : ack.getD m false = false) (hb : b ≤ m) : slideBase ack t b ≤ m :=
  slideBaseAux_le_of_false ack t m hm (t - b) b hb

/-! ### receive_ack lemmas -/

/-- Case analysis of a successful `receive_ack` call: the index resolves
to some `j` in range, and either the entry was already true (no state
change, no event) or it was false (entry set, window slid, ack event). -/
lemma receive_ack_cases {s : SelectiveRepeatARQ} {q : Int}
    {a : SelectiveRepeatARQ} {ev : List Event}
    (h : receive_ack s q = some (a, ev)) :
    ∃ j, pyIdx s.ack_received.length q = some j ∧ j < s.ack_received.length ∧
      ((s.ack_received.getD j false = true ∧ a = s ∧ ev = []) ∨
       (s.ack_received.getD j false = false ∧
        a = ⟨s.total_frames, s.window_size,
             slideBase (s.ack_received.set j true) s.total_frames s.base,
             s.next_seq_num, s.ack_received.set j true⟩ ∧
        ev = [Event.ack q])) := by
  unfold receive_ack at h
  cases hp : pyIdx s.ack_received.length q with
  | none => rw [hp] at h; exact absurd h (by simp)
  | some j =>
    rw [hp] at h
    dsimp only at h
    refine ⟨j, rfl, pyIdx_lt hp, ?_⟩
    rcases Bool.eq_false_or_eq_true (s.ack_received.getD j false) with hT | hF
    · rw [if_pos hT, Option.some_inj] at h
      exact Or.inl ⟨hT, congrArg Prod.fst h.symm, congrArg Prod.snd h.symm⟩
    · rw [if_neg (by simp only [hF]; simp)] at h
      rw [Option.some_inj] at h
      exact Or.inr ⟨hF, congrArg Prod.fst h.symm, congrArg Prod.snd h.symm⟩

/-! ### The run invariant -/

/-- Invariant of the window core in a run with configuration
`(t, w)`: the configuration fields are as constructed, the ack table has
length `t`, the window pointers satisfy the window bounds, every entry
below `base` is acknowledged, the entry at `base` is not (so `base` is
the least unacknowledged index), and no entry at or above `next_seq_num`
is acknowledged. -/
structure ArqInv (t w : Nat) (s : SelectiveRepeatARQ) : Prop where
  total_eq : s.total_frames = t
  window_eq : s.window_size = w
  len_eq : s.ack_received.length = t
  base_le_next : s.base ≤ s.next_seq_num
  next_le_total : s.next_seq_num ≤ t
  window_bound : s.next_seq_num - s.base ≤ w
  below_base : ∀ i, i < s.base → s.ack_received.getD i false = true
  at_base : s.base < t → s.ack_received.getD s.base false = false
  above_next : ∀ i, s.next_seq_num ≤ i → s.ack_received.getD i false = false

/-- Invariant of a whole run state: the window core invariant plus the
fact that every in-flight channel attempt and every armed timer carries
a sequence number of an already admitted frame. -/
structure SysInv (t w : Nat) (s : Sys) : Prop where
  core : ArqInv t w s.arq
  inflight_lt : ∀ q ∈ s.inflight, q < s.arq.next_seq_num
  timers_lt : ∀ q ∈ s.timers, q < s.arq.next_seq_num

lemma arqInv_init (t w : Nat) : ArqInv t w (init t w) where
  total_eq := rfl
  window_eq := rfl
  len_eq := List.length_replicate t false
  base_le_next := Nat.le_refl 0
  next_le_total := Nat.zero_le t
  window_bound := Nat.zero_le w
  below_base := fun i hi => absurd hi (Nat.not_lt_zero i)
  at_base := fun _ => getD_replicate t 0
  above_next := fun i _ => getD_replicate t i

/-- Effect of a successful `receive_ack` on a state satisfying the window
core invariant, for an already admitted sequence number: the invariant is
preserved, `base` does not decrease, `next_seq_num` is unchanged, and
acknowledged entries stay acknowledged. -/
lemma receive_ack_preserves {t w : Nat} {s a : SelectiveRepeatARQ}
    {ev : List Event} {q : Nat} (hs : ArqInv t w s) (hq : q < s.next_seq_num)
    (h : receive_ack s (q : Int) = some (a, ev)) :
    ArqInv t w a ∧ s.base ≤ a.base ∧ a.next_seq_num = s.next_seq_num ∧
      (∀ i, s.ack_received.getD i false = true →
        a.ack_received.getD i false = true) := by
  obtain ⟨j, hj, hjlen, hcase⟩ := receive_ack_cases h
  have hqlen : q < s.ack_received.length := by
    rw [hs.len_eq]; exact Nat.lt_of_lt_of_le hq hs.next_le_total
  have hjq : j = q := by
    rw [pyIdx_natCast s.ack_received.length q hqlen, Option.some_inj] at hj
    exact hj.symm
  subst hjq
  rcases hcase with ⟨_, rfl, _⟩ | ⟨hF, rfl, _⟩
  · exact ⟨hs, Nat.le_refl _, rfl, fun i hi => hi⟩
  · set ack2 := s.ack_received.set j true with hack2
    have hlen2 : ack2.length = t := by
      rw [hack2, List.length_set, hs.len_eq]
    have htrue : ∀ i, s.ack_received.getD i false = true →
        ack2.getD i false = true :=
      fun i hi => getD_set_true_of_true s.ack_received j i hjlen hi
    have hnext_false : s.next_seq_num < t →
        ack2.getD s.next_seq_num false = false := by
      intro _
      rw [hack2, getD_set_ne _ _ _ _ _ (Nat.ne_of_lt hq)]
      exact hs.above_next s.next_seq_num (Nat.le_refl _)
    have hbase_le : s.base ≤ slideBase ack2 s.total_frames s.base :=
      slideBase_ge ack2 s.total_frames s.base
    have hslide_le_next : slideBase ack2 s.total_frames s.base ≤
        s.next_seq_num := by
      rcases Nat.lt_or_ge s.next_seq_num t with hlt | hge
      · exact slideBase_le_of_false ack2 s.total_frames s.next_seq_num s.base
          (hnext_false hlt) hs.base_le_next
      · have hnt : s.next_seq_num = t := Nat.le_antisymm hs.next_le_total hge
        rw [hnt]
        rw [← hs.total_eq] at hnt ⊢
        exact slideBase_le ack2 s.total_frames s.base
          (Nat.le_trans hs.base_le_next (Nat.le_of_eq hnt))
    refine ⟨?_, hbase_le, rfl, htrue⟩
    refine ⟨hs.total_eq, hs.window_eq, hlen2, hslide_le_next,
      hs.next_le_total, ?_, ?_, ?_, ?_⟩
    · exact Nat.le_trans (Nat.sub_le_sub_left hbase_le s.next_seq_num)
        hs.window_bound
    · intro i hi
      rcases Nat.lt_or_ge i s.base with hib | hib
      · exact htrue i (hs.below_base i hib)
      · exact slideBase_interval ack2 s.total_frames s.base i hib hi
    · intro hlt
      rw [← hs.total_eq] at hlt
      rw [hs.total_eq] at hlt ⊢
      rw [← hs.total_eq] at hlt ⊢
      exact slideBase_stop ack2 s.total_frames s.base hlt
    · intro i hi
      rw [hack2, getD_set_ne _ _ _ _ _
        (Nat.ne_of_lt (Nat.lt_of_lt_of_le hq hi))]
      exact hs.above_next i hi

/-- Every step of a run preserves the invariant; moreover `base` and
`next_seq_num` never decrease and acknowledged entries stay
acknowledged. -/
lemma sysStep_preserves {t w : Nat} {s : Sys} {l : Label} {s2 : Sys}
    {ev : List Event} (hs : SysInv t w s) (h : sysStep s l = some (s2, ev)) :
    SysInv t w s2 ∧ s.arq.base ≤ s2.arq.base ∧
      s.arq.next_seq_num ≤ s2.arq.next_seq_num ∧
      (∀ i, s.arq.ack_received.getD i false = true →
        s2.arq.ack_received.getD i false = true) := by
  cases l with
  | sendNext =>
    simp only [sysStep] at h
    split at h
    case isFalse => exact Option.noConfusion h
    case isTrue hg =>
      rw [Option.some_inj] at h
      injection h with harq hev
      subst harq
      refine ⟨⟨⟨hs.core.total_eq, hs.core.window_eq, hs.core.len_eq,
        Nat.le_succ_of_le hs.core.base_le_next, ?_, ?_,
        hs.core.below_base, hs.core.at_base, ?_⟩, ?_, ?_⟩,
        Nat.le_refl _, Nat.le_succ _, fun i hi => hi⟩
      · rw [← hs.core.total_eq]; exact hg.2
      · dsimp only
        have h1 := hs.core.window_eq
        have h2 := hg.1
        omega
      · intro i hi
        exact hs.core.above_next i (Nat.le_of_succ_le hi)
      · intro q hq
        rcases List.mem_cons.mp hq with rfl | hmem
        · exact Nat.lt_succ_self _
        · exact Nat.lt_succ_of_lt (hs.inflight_lt q hmem)
      · intro q hq
        rcases List.mem_cons.mp hq with rfl | hmem
        · exact Nat.lt_succ_self _
        · exact Nat.lt_succ_of_lt (hs.timers_lt q hmem)
  | lose seq =>
    simp only [sysStep] at h
    split at h
    case isFalse => exact Option.noConfusion h
    case isTrue hg =>
      rw [Option.some_inj] at h
      injection h with harq hev
      subst harq
      exact ⟨⟨hs.core,
        fun q hq => hs.inflight_lt q (List.mem_of_mem_erase hq),
        hs.timers_lt⟩, Nat.le_refl _, Nat.le_refl _, fun i hi => hi⟩
  | deliver seq =>
    simp only [sysStep] at h
    split at h
    case isFalse => exact Option.noConfusion h
    case isTrue hg =>
      cases hr : receive_ack s.arq (seq : Int) with
      | none => rw [hr] at h; exact Option.noConfusion h
      | some p =>
        obtain ⟨a, ev2⟩ := p
        rw [hr] at h
        dsimp only at h
        rw [Option.some_inj] at h
        injection h with harq hev
        subst harq
        obtain ⟨hinv, hbase, hnext, htrue⟩ :=
          receive_ack_preserves hs.core (hs.inflight_lt seq hg) hr
        refine ⟨⟨hinv, ?_, ?_⟩, hbase, Nat.le_of_eq hnext.symm, htrue⟩
        · intro q hq
          rw [hnext]
          exact hs.inflight_lt q (List.mem_of_mem_erase hq)
        · intro q hq
          rw [hnext]
          exact hs.timers_lt q hq
  | expire seq =>
    simp only [sysStep] at h
    split at h
    case isFalse => exact Option.noConfusion h
    case isTrue hg =>
      split at h
      all_goals
        rw [Option.some_inj] at h
        injection h with harq hev
        subst harq
      · exact ⟨⟨hs.core, hs.inflight_lt,
          fun q hq => hs.timers_lt q (List.mem_of_mem_erase hq)⟩,
          Nat.le_refl _, Nat.le_refl _, fun i hi => hi⟩
      · refine ⟨⟨hs.core, ?_,
          fun q hq => hs.timers_lt q (List.mem_of_mem_erase hq)⟩,
          Nat.le_refl _, Nat.le_refl _, fun i hi => hi⟩
        intro q hq
        rcases List.mem_cons.mp hq with rfl | hmem
        · exact hs.timers_lt q hg
        · exact hs.inflight_lt q hmem

/-- Every reachable state of a run satisfies the invariant. -/
lemma reachable_inv {t w : Nat} {s : Sys}
    (h : Reachable t w s) : SysInv t w s := by
  induction h with
  | start =>
    exact ⟨arqInv_init t w, fun q hq => absurd hq (List.not_mem_nil q),
      fun q hq => absurd hq (List.not_mem_nil q)⟩
  | step _ hstep ih => exact (sysStep_preserves ih hstep).1

/-! ### Further small lemmas -/

lemma pyIdx_natCast_inv {len q j : Nat}
    (h : pyIdx len (q : Int) = some j) : j = q ∧ q < len := by
  simp only [pyIdx] at h
  split at h
  · next hc =>
    rw [Option.some_inj] at h
    omega
  · split at h
    · next hc => omega
    · exact Option.noConfusion h

lemma getD_replicate_lt (n i : Nat) (h : i < n) :
    (List.replicate n false).getD i true = false := by
  induction n generalizing i with
  | zero => omega
  | succ n ih =>
    cases i with
    | zero => rfl
    | succ i =>
      simp only [List.replicate, List.getD, List.getElem?_cons_succ]
      exact ih i (by omega)

/-- A second `receive_ack` with the same sequence number right after a
successful one is a silent no-op: it returns the same state and emits no
event. -/
lemma receive_ack_twice {s s1 : SelectiveRepeatARQ} {q : Int}
    {ev : List Event} (h : receive_ack s q = some (s1, ev)) :
    receive_ack s1 q = some (s1, []) := by
  obtain ⟨j, hj, hjlen, hcase⟩ := receive_ack_cases h
  rcases hcase with ⟨hT, rfl, _⟩ | ⟨hF, rfl, _⟩
  · unfold receive_ack
    rw [hj]
    dsimp only
    rw [if_pos hT]
  · unfold receive_ack
    dsimp only
    rw [List.length_set, hj]
    dsimp only
    rw [if_pos (getD_set_self s.ack_received j true false hjlen)]

/-! ### Concrete run states used as witnesses -/

/-- The state of a run with `total_frames = 2`, `window_size = 2` after
admitting frame 0: one in-flight channel attempt and one timer for 0. -/
def sA : Sys := ⟨⟨2, 2, 0, 1, [false, false]⟩, [0], [0]⟩

/-- The state after the channel then delivers the ack for frame 0: the
entry is recorded, the window slid to 1, and the timer for 0 is still
armed. -/
def sB : Sys := ⟨⟨2, 2, 1, 1, [true, false]⟩, [], [0]⟩

/-- The state after the timer for the already acknowledged frame 0 then
expires: a silent no-op that merely disarms the timer. -/
def sC : Sys := ⟨⟨2, 2, 1, 1, [true, false]⟩, [], []⟩

lemma step_start_sA :
    sysStep (initSys 2 2) Label.sendNext = some (sA, [Event.send 0]) := by
  decide

lemma step_sA_sB :
    sysStep sA (Label.deliver 0) = some (sB, [Event.ack 0]) := by decide

lemma reach_sA : Reachable 2 2 sA :=
  Reachable.step Reachable.start step_start_sA

lemma reach_sB : Reachable 2 2 sB :=
  Reachable.step reach_sA step_sA_sB

/-! ### Claim theorems -/

/-- C1: window-state invariant of a run.  In every reachable state
`0 ≤ base ≤ next_seq_num ≤ total_frames` and
`next_seq_num - base ≤ window_size`; `base` and `next_seq_num` are
non-decreasing across every step; the ack table starts all-false and an
entry, once true, never reverts to false; and no frame is dispatched by
the run loop while `next_seq_num - base = window_size`. -/
theorem window_state_invariant (t w : Nat) :
    (∀ s, Reachable t w s →
      s.arq.base ≤ s.arq.next_seq_num ∧
      s.arq.next_seq_num ≤ s.arq.total_frames ∧
      s.arq.next_seq_num - s.arq.base ≤ s.arq.window_size) ∧
    (∀ s l s2 ev, Reachable t w s → sysStep s l = some (s2, ev) →
      s.arq.base ≤ s2.arq.base ∧
      s.arq.next_seq_num ≤ s2.arq.next_seq_num ∧
      (∀ i, s.arq.ack_received.getD i false = true →
        s2.arq.ack_received.getD i false = true)) ∧
    (initSys t w).arq.ack_received = List.replicate t false ∧
    (∀ s, Reachable t w s →
      s.arq.next_seq_num - s.arq.base = s.arq.window_size →
      sysStep s Label.sendNext = none) := by
  refine ⟨?_, ?_, rfl, ?_⟩
  · intro s hr
    have inv := (reachable_inv hr).core
    refine ⟨inv.base_le_next, ?_, ?_⟩
    · rw [inv.total_eq]; exact inv.next_le_total
    · rw [inv.window_eq]; exact inv.window_bound
  · intro s l s2 ev hr hstep
    exact (sysStep_preserves (reachable_inv hr) hstep).2
  · intro s hr heq
    have inv := (reachable_inv hr).core
    have hb := inv.base_le_next
    simp only [sysStep]
    split
    · next hg => omega
    · rfl

/-- C1 witness: the invariant instantiated at the concrete reachable
state `sA`. -/
theorem window_state_invariant_witness :
    sA.arq.base ≤ sA.arq.next_seq_num ∧
    sA.arq.next_seq_num ≤ sA.arq.total_frames ∧
    sA.arq.next_seq_num - sA.arq.base ≤ sA.arq.window_size :=
  (window_state_invariant 2 2).1 sA reach_sA

/-- C2: selective window slide.  After a successful `receive_ack seq` in
a reachable state, for any already admitted `seq` (`seq <
next_seq_num`), the new `base` is the smallest index whose ack-table
entry is false, or `total_frames` when all are true.  In particular for
a window of frames 0 and 1 with acks delivered 1 then 0: after ack(1)
the base stays 0, and after ack(0) it jumps to 2 in that single call. -/
theorem selective_window_slide (t w : Nat) :
    (∀ s, Reachable t w s → ∀ (seq : Nat) a ev,
      seq < s.arq.next_seq_num →
      receive_ack s.arq (seq : Int) = some (a, ev) →
      IsLeastFalse a.ack_received a.total_frames a.base) ∧
    receive_ack ⟨2, 2, 0, 2, [false, false]⟩ 1 =
      some (⟨2, 2, 0, 2, [false, true]⟩, [Event.ack 1]) ∧
    receive_ack ⟨2, 2, 0, 2, [false, true]⟩ 0 =
      some (⟨2, 2, 2, 2, [true, true]⟩, [Event.ack 0]) := by
  refine ⟨?_, by decide, by decide⟩
  intro s hr seq a ev hseq h
  have inv := (reachable_inv hr).core
  obtain ⟨ainv, _, _, _⟩ := receive_ack_preserves inv hseq h
  refine ⟨?_, ainv.below_base, ?_⟩
  · rw [ainv.total_eq]
    exact Nat.le_trans ainv.base_le_next ainv.next_le_total
  · intro hlt
    rw [ainv.total_eq] at hlt
    exact ainv.at_base hlt

/-- C2 witness: in the reachable state `sA` the ack for frame 0 slides
the base to 1, the least unacknowledged index. -/
theorem selective_window_slide_witness :
    IsLeastFalse [true, false] 2 1 :=
  (selective_window_slide 2 2).1 sA reach_sA 0
    ⟨2, 2, 1, 1, [true, false]⟩ [Event.ack 0] (by decide) (by decide)

/-- C3: idempotence of ack delivery.  For every in-range `seq`, a first
`receive_ack` succeeds and a second `receive_ack` with the same `seq`
returns the identical state and emits no event. -/
theorem receive_ack_idempotent :
    ∀ (s : SelectiveRepeatARQ) (seq : Int),
      0 ≤ seq → seq < (s.total_frames : Int) →
      s.ack_received.length = s.total_frames →
      ∃ s1 ev, receive_ack s seq = some (s1, ev) ∧
        receive_ack s1 seq = some (s1, []) := by
  intro s seq h0 h1 hlen
  have hjlen : seq.toNat < s.ack_received.length := by rw [hlen]; omega
  have hp : pyIdx s.ack_received.length seq = some seq.toNat := by
    have hcast : ((seq.toNat : Nat) : Int) = seq := Int.toNat_of_nonneg h0
    rw [← hcast]
    exact pyIdx_natCast _ _ hjlen
  have hfirst : ∃ s1 ev, receive_ack s seq = some (s1, ev) := by
    unfold receive_ack
    rw [hp]
    dsimp only
    split
    · exact ⟨s, [], rfl⟩
    · exact ⟨_, _, rfl⟩
  obtain ⟨s1, ev, h⟩ := hfirst
  exact ⟨s1, ev, h, receive_ack_twice h⟩

/-- C3 witness: idempotence at the freshly constructed one-frame
window. -/
theorem receive_ack_idempotent_witness :
    ∃ s1 ev, receive_ack (init 1 1) 0 = some (s1, ev) ∧
      receive_ack s1 0 = some (s1, []) :=
  receive_ack_idempotent (init 1 1) 0 (by decide) (by decide) (by decide)

/-- C4: no retransmission of an acknowledged frame.  In any reachable
state, a timer-expiry step for a `seq` whose ack-table entry is true at
the (lock-protected) expiry check emits no event and dispatches no
retransmission. -/
theorem no_retransmission_when_acked (t w : Nat) :
    ∀ s, Reachable t w s → ∀ (seq : Nat) s2 ev,
      sysStep s (Label.expire seq) = some (s2, ev) →
      s.arq.ack_received.getD seq false = true →
      ev = [] ∧ s2.inflight = s.inflight := by
  intro s _ seq s2 ev h hT
  simp only [sysStep] at h
  split at h
  case isFalse => exact Option.noConfusion h
  case isTrue =>
    rw [Option.some_inj] at h
    injection h with harq hev
    subst harq
    subst hev
    exact ⟨rfl, rfl⟩

/-- C4 witness: in the reachable state `sB` the timer for the already
acknowledged frame 0 expires silently. -/
theorem no_retransmission_when_acked_witness :
    ([] : List Event) = [] ∧ sC.inflight = sB.inflight :=
  no_retransmission_when_acked 2 2 sB reach_sB 0 sC []
    (by decide) (by decide)

/-- C5 counterexample: in state `sA` the timer for the unacknowledged
frame 0 expires; the expiry callback does dispatch a retransmission (a
second in-flight channel attempt for 0 appears, with the timeout event),
but it arms no new timer — the timer list is empty afterwards.  This
refutes the claim that the expiry callback re-arms its timer, and with
it the claimed unbounded retry of a perpetually lost frame. -/
theorem timer_not_rearmed_cex :
    sysStep sA (Label.expire 0) =
      some (⟨⟨2, 2, 0, 1, [false, false]⟩, [0, 0], []⟩,
        [Event.timeout 0]) ∧
    0 ∉ (⟨⟨2, 2, 0, 1, [false, false]⟩, [0, 0], []⟩ : Sys).timers := by
  decide

/-- C5 amended: a timer-expiry step always disarms the expired timer and
never arms a new one (`timer_thread` never calls `start_timer`); when
the frame is still unacknowledged it dispatches exactly one
retransmission through the channel with the timeout event.  Hence each
frame gets at most one timeout-driven retransmission per arming, and a
frame whose retransmission is lost is never retried again. -/
theorem expire_dispatches_without_rearm :
    ∀ (s : Sys) (seq : Nat) s2 ev,
      sysStep s (Label.expire seq) = some (s2, ev) →
      s2.timers = s.timers.erase seq ∧
      (s.arq.ack_received.getD seq false = false →
        s2.inflight = seq :: s.inflight ∧ ev = [Event.timeout seq]) := by
  intro s seq s2 ev h
  simp only [sysStep] at h
  split at h
  case isFalse => exact Option.noConfusion h
  case isTrue hmem =>
    split at h
    case isTrue hT =>
      rw [Option.some_inj] at h
      injection h with harq hev
      subst harq
      subst hev
      refine ⟨rfl, fun hF => ?_⟩
      rw [hF] at hT
      exact Bool.noConfusion hT
    case isFalse hF2 =>
      rw [Option.some_inj] at h
      injection h with harq hev
      subst harq
      subst hev
      exact ⟨rfl, fun _ => ⟨rfl, rfl⟩⟩

/-- C5 amended witness: the expiry step at `sA` instantiated. -/
theorem expire_dispatches_without_rearm_witness :
    (⟨⟨2, 2, 0, 1, [false, false]⟩, [0, 0], []⟩ : Sys).timers =
      sA.timers.erase 0 ∧
    (sA.arq.ack_received.getD 0 false = false →
      (⟨⟨2, 2, 0, 1, [false, false]⟩, [0, 0], []⟩ : Sys).inflight =
        0 :: sA.inflight ∧
      [Event.timeout 0] = [Event.timeout 0]) :=
  expire_dispatches_without_rearm sA 0
    ⟨⟨2, 2, 0, 1, [false, false]⟩, [0, 0], []⟩ [Event.timeout 0]
    (by decide)

/-- C6 counterexample: in state `sA`, the first (state-changing) ack
delivery for frame 0 leaves the timer for 0 armed — `receive_ack` cancels
nothing and the simulator has no inactive flag at all.  This refutes the
claim that `receive_ack` sets the timer inactive the instant the ack
arrives. -/
theorem ack_leaves_timer_armed_cex :
    sysStep sA (Label.deliver 0) = some (sB, [Event.ack 0]) ∧
    0 ∈ sB.timers := by decide

/-- C6 amended: `receive_ack` performs no timer cancellation — an ack
delivery step leaves the timer list unchanged — and the later expiry of
the still-armed timer for the now acknowledged `seq` is a silent no-op,
not because of any inactive flag but because the expiry callback
re-checks the ack-table entry, which the delivery just set to true. -/
theorem ack_no_cancel_expiry_noop :
    ∀ (s : Sys) (seq : Nat) s2 ev,
      sysStep s (Label.deliver seq) = some (s2, ev) →
      s2.timers = s.timers ∧
      s2.arq.ack_received.getD seq false = true ∧
      (∀ s3 ev2, sysStep s2 (Label.expire seq) = some (s3, ev2) →
        ev2 = [] ∧ s3.inflight = s2.inflight) := by
  intro s seq s2 ev h
  simp only [sysStep] at h
  split at h
  case isFalse => exact Option.noConfusion h
  case isTrue hmem =>
    cases hr : receive_ack s.arq (seq : Int) with
    | none => rw [hr] at h; exact Option.noConfusion h
    | some p =>
      obtain ⟨a, ev2⟩ := p
      rw [hr] at h
      dsimp only at h
      rw [Option.some_inj] at h
      injection h with harq hev
      subst harq
      obtain ⟨j, hj, hjlen, hcase⟩ := receive_ack_cases hr
      obtain ⟨rfl, hqlen⟩ := pyIdx_natCast_inv hj
      have hacked : a.ack_received.getD j false = true := by
        rcases hcase with ⟨hT, rfl, _⟩ | ⟨hF, rfl, _⟩
        · exact hT
        · exact getD_set_self s.arq.ack_received j true false hjlen
      refine ⟨rfl, hacked, ?_⟩
      intro s3 ev3 h3
      simp only [sysStep] at h3
      split at h3
      case isFalse => exact Option.noConfusion h3
      case isTrue hmem3 =>
        rw [Option.some_inj] at h3
        injection h3 with harq3 hev3
        subst harq3
        subst hev3
        exact ⟨rfl, rfl⟩

/-- C6 amended witness: the deliver step at `sA` and the subsequent
expiry at `sB` instantiated. -/
theorem ack_no_cancel_expiry_noop_witness :
    sB.timers = sA.timers ∧
    sB.arq.ack_received.getD 0 false = true ∧
    (([] : List Event) = [] ∧ sC.inflight = sB.inflight) := by
  have h := ack_no_cancel_expiry_noop sA 0 sB [Event.ack 0] (by decide)
  exact ⟨h.1, h.2.1, h.2.2 sC [] (by decide)⟩

/-- C7 counterexample: with a freshly constructed two-frame window
(`next_seq_num = 0`), delivering an ack for frame 1 — which satisfies
`next_seq_num ≤ 1 < total_frames` — is not surfaced as any error:
`receive_ack` returns normally and records it as an ordinary first-time
acknowledgment, emitting the usual ack event.  This refutes the claim
that such an ack is fatal to the run and not recorded as a normal
acknowledgment. -/
theorem ack_beyond_next_is_normal_cex :
    receive_ack (init 2 1) 1 =
      some (⟨2, 1, 0, 0, [false, true]⟩, [Event.ack 1]) := by decide

/-- C7 amended: in every reachable state, an ack for any `seq` with
`next_seq_num ≤ seq < total_frames` is silently accepted and recorded as
a normal first-time acknowledgment (never an error), while an ack for a
`seq` below the current base is an idempotent no-op, also never an
error; only an index outside the table fails. -/
theorem ack_beyond_next_accepted (t w : Nat) :
    ∀ s, Reachable t w s →
      (∀ seq : Nat, s.arq.next_seq_num ≤ seq → seq < s.arq.total_frames →
        ∃ a, receive_ack s.arq (seq : Int) =
          some (a, [Event.ack (seq : Int)])) ∧
      (∀ seq : Nat, seq < s.arq.base →
        receive_ack s.arq (seq : Int) = some (s.arq, [])) := by
  intro s hr
  have inv := (reachable_inv hr).core
  constructor
  · intro seq h1 h2
    have hlen : seq < s.arq.ack_received.length := by
      rw [inv.len_eq, ← inv.total_eq]
      exact h2
    have hF : s.arq.ack_received.getD seq false = false :=
      inv.above_next seq h1
    refine ⟨⟨s.arq.total_frames, s.arq.window_size,
      slideBase (s.arq.ack_received.set seq true) s.arq.total_frames
        s.arq.base,
      s.arq.next_seq_num, s.arq.ack_received.set seq true⟩, ?_⟩
    unfold receive_ack
    rw [pyIdx_natCast _ _ hlen]
    dsimp only
    rw [if_neg (by simp only [hF]; simp)]
  · intro seq hb
    have hT := inv.below_base seq hb
    have hlen : seq < s.arq.ack_received.length := by
      rw [inv.len_eq]
      exact Nat.lt_of_lt_of_le hb
        (Nat.le_trans inv.base_le_next inv.next_le_total)
    unfold receive_ack
    rw [pyIdx_natCast _ _ hlen]
    dsimp only
    rw [if_pos hT]

/-- C7 amended witness: at the reachable state `sB` (base 1,
next_seq_num 1), the never-sent frame 1 is acked normally and the
already-acked frame 0 is a silent no-op. -/
theorem ack_beyond_next_accepted_witness :
    (∃ a, receive_ack sB.arq ((1 : Nat) : Int) =
      some (a, [Event.ack ((1 : Nat) : Int)])) ∧
    receive_ack sB.arq ((0 : Nat) : Int) = some (sB.arq, []) := by
  have h := ack_beyond_next_accepted 2 2 sB reach_sB
  exact ⟨h.1 1 (by decide) (by decide), h.2 0 (by decide)⟩

/-- C8 counterexample: constructing a simulator with
`window_size = 5 > total_frames = 2` is not rejected: the constructor
succeeds and creates the full simulation state (window pointers at 0 and
a two-entry ack table), refuting the claim that such a configuration is
rejected with an error before any simulation state is created. -/
theorem construction_unvalidated_cex :
    init 2 5 = ⟨2, 5, 0, 0, [false, false]⟩ := by decide

/-- C8 amended: the constructor performs no validation at all — for
every `total_frames` and `window_size`, including
`window_size > total_frames`, it succeeds and unconditionally creates
the simulation state: both window pointers at 0 and an all-false ack
table of length `total_frames`.  The loss and reorder probabilities and
the timeout are module-level constants that are never checked either. -/
theorem construction_never_rejects :
    ∀ total_frames window_size : Nat,
      (init total_frames window_size).total_frames = total_frames ∧
      (init total_frames window_size).window_size = window_size ∧
      (init total_frames window_size).base = 0 ∧
      (init total_frames window_size).next_seq_num = 0 ∧
      (init total_frames window_size).ack_received.length = total_frames ∧
      (∀ i, i < total_frames →
        (init total_frames window_size).ack_received.getD i true = false) := by
  intro t w
  exact ⟨rfl, rfl, rfl, rfl, List.length_replicate t false,
    fun i hi => getD_replicate_lt t i hi⟩

/-- C8 amended witness: the oversized-window configuration instantiated
at entry 0. -/
theorem construction_never_rejects_witness :
    (init 2 5).ack_received.getD 0 true = false :=
  (construction_never_rejects 2 5).2.2.2.2.2 0 (by decide)

/-- C9 counterexample: on the draw stream `[1/10, 9/10, 9/10, 0]` the
code delivers the frame — its first draw is the base delay and only the
second draw (9/10, not below 2/10) decides loss — whereas the
order stated in the specification (loss decision first, no further draws when
lost) would drop the frame, since the first draw 1/10 is below 2/10.
The two disagree on the same stream, refuting the claimed draw order. -/
theorem send_frame_draw_order_cex :
    send_frame 0 [1/10, 9/10, 9/10, 0] =
      some (SendOutcome.delivered (3/5) false 0, [0]) ∧
    send_frame_specOrder 0 [1/10, 9/10, 9/10, 0] =
      some (SendOutcome.lost, [9/10, 9/10, 0]) ∧
    send_frame 0 [1/10, 9/10, 9/10, 0] ≠
      send_frame_specOrder 0 [1/10, 9/10, 9/10, 0] := by
  have h1 : send_frame 0 [1/10, 9/10, 9/10, 0] =
      some (SendOutcome.delivered (3/5) false 0, [0]) := by
    norm_num [send_frame, uniformDraw, LOSS_PROBABILITY,
      REORDER_PROBABILITY, DELAY_LO, DELAY_HI]
  have h2 : send_frame_specOrder 0 [1/10, 9/10, 9/10, 0] =
      some (SendOutcome.lost, [9/10, 9/10, 0]) := by
    norm_num [send_frame_specOrder, LOSS_PROBABILITY]
  refine ⟨h1, h2, ?_⟩
  rw [h1, h2]
  simp

/-- C9 amended: characterization of every successful `send_frame` call.
The loss decision is the second draw (the base delay is drawn first, so
a lost attempt has consumed exactly two draws and delivers no ack); an
attempt that is not lost delivers an ack carrying exactly the sent
sequence number of the sent frame, after the base delay drawn uniformly from the
delay range plus, when the third draw falls below the reorder
probability, an extra uniform delay from the larger range (1, 2). -/
theorem send_frame_contract :
    ∀ (seq : Nat) (rng : List ℚ) (out : SendOutcome) (rest : List ℚ),
      send_frame seq rng = some (out, rest) →
      (out = SendOutcome.lost ↔ rng.getD 1 1 < LOSS_PROBABILITY) ∧
      (out = SendOutcome.lost → rest = rng.drop 2) ∧
      (∀ d r q, out = SendOutcome.delivered d r q → q = seq ∧
        (r = true →
          d = uniformDraw DELAY_LO DELAY_HI (rng.getD 0 0) +
            uniformDraw 1 2 (rng.getD 3 0) ∧
          rng.getD 2 1 < REORDER_PROBABILITY ∧ rest = rng.drop 4) ∧
        (r = false →
          d = uniformDraw DELAY_LO DELAY_HI (rng.getD 0 0) ∧
          ¬ rng.getD 2 1 < REORDER_PROBABILITY ∧ rest = rng.drop 3)) := by
  intro seq rng out rest h
  match rng with
  | [] => exact Option.noConfusion h
  | [u1] => exact Option.noConfusion h
  | u1 :: p1 :: rng2 =>
    simp only [send_frame] at h
    split at h
    · next hloss =>
      rw [Option.some_inj] at h
      injection h with hout hrest
      subst hout
      subst hrest
      refine ⟨⟨fun _ => hloss, fun _ => rfl⟩, fun _ => rfl, ?_⟩
      intro d r q hq
      exact SendOutcome.noConfusion hq
    · next hloss =>
      match rng2 with
      | [] => exact Option.noConfusion h
      | p2 :: rng3 =>
        dsimp only at h
        split at h
        · next hre =>
          match rng3 with
          | [] => exact Option.noConfusion h
          | u2 :: rng4 =>
            dsimp only at h
            rw [Option.some_inj] at h
            injection h with hout hrest
            subst hout
            subst hrest
            refine ⟨⟨fun hc => SendOutcome.noConfusion hc,
              fun hc => absurd hc hloss⟩,
              fun hc => SendOutcome.noConfusion hc, ?_⟩
            intro d r q hq
            rw [SendOutcome.delivered.injEq] at hq
            obtain ⟨hd, hr, hq2⟩ := hq
            subst hd
            subst hr
            subst hq2
            exact ⟨rfl, fun _ => ⟨rfl, hre, rfl⟩,
              fun hc => Bool.noConfusion hc⟩
        · next hre =>
          rw [Option.some_inj] at h
          injection h with hout hrest
          subst hout
          subst hrest
          refine ⟨⟨fun hc => SendOutcome.noConfusion hc,
            fun hc => absurd hc hloss⟩,
            fun hc => SendOutcome.noConfusion hc, ?_⟩
          intro d r q hq
          rw [SendOutcome.delivered.injEq] at hq
          obtain ⟨hd, hr, hq2⟩ := hq
          subst hd
          subst hr
          subst hq2
          exact ⟨rfl, fun hc => Bool.noConfusion hc,
            fun _ => ⟨rfl, hre, rfl⟩⟩

/-- C9 amended witness: the characterization applied to a lost attempt,
whose loss is decided by the second draw of the stream. -/
theorem send_frame_contract_witness :
    SendOutcome.lost = SendOutcome.lost ↔
      ([9/10, 1/10] : List ℚ).getD 1 1 < LOSS_PROBABILITY :=
  (send_frame_contract 0 [9/10, 1/10] SendOutcome.lost []
    (by norm_num [send_frame, LOSS_PROBABILITY])).1

/-- C10: bounds partiality of `receive_ack`.  With an ack table of the
constructed length, a call with `seq ≥ total_frames` fails with an
out-of-range index error (modelled as `none`), while a call with
`-total_frames ≤ seq < 0` is not rejected: it behaves on the state like
the call with index `total_frames + seq` (Python negative indexing) and
silently marks that frame acknowledged. -/
theorem receive_ack_bounds :
    ∀ (s : SelectiveRepeatARQ),
      s.ack_received.length = s.total_frames →
      (∀ seq : Int, (s.total_frames : Int) ≤ seq →
        receive_ack s seq = none) ∧
      (∀ seq : Int, -(s.total_frames : Int) ≤ seq → seq < 0 →
        Option.map Prod.fst (receive_ack s seq) =
          Option.map Prod.fst
            (receive_ack s ((s.total_frames : Int) + seq)) ∧
        ∃ a ev, receive_ack s seq = some (a, ev) ∧
          a.ack_received.getD ((s.total_frames : Int) + seq).toNat false =
            true) := by
  intro s hlen
  constructor
  · intro seq hge
    unfold receive_ack
    rw [hlen, pyIdx_ge s.total_frames seq hge]
  · intro seq h0 h1
    set j : Nat := ((s.total_frames : Int) + seq).toNat with hj
    have hjlt : j < s.ack_received.length := by rw [hlen]; omega
    have hcast : ((j : Nat) : Int) = (s.total_frames : Int) + seq := by
      rw [hj]; omega
    have hp1 : pyIdx s.ack_received.length seq = some j := by
      rw [hlen, pyIdx_neg s.total_frames seq (by omega) h1]
    have hp2 : pyIdx s.ack_received.length
        ((s.total_frames : Int) + seq) = some j := by
      rw [← hcast]
      exact pyIdx_natCast _ _ hjlt
    constructor
    · unfold receive_ack
      rw [hp1, hp2]
      dsimp only
      by_cases hc : s.ack_received.getD j false = true
      · rw [if_pos hc, if_pos hc]
      · rw [if_neg hc, if_neg hc]
        rfl
    · by_cases hc : s.ack_received.getD j false = true
      · refine ⟨s, [], ?_, hc⟩
        unfold receive_ack
        rw [hp1]
        dsimp only
        rw [if_pos hc]
      · refine ⟨⟨s.total_frames, s.window_size,
          slideBase (s.ack_received.set j true) s.total_frames s.base,
          s.next_seq_num, s.ack_received.set j true⟩,
          [Event.ack seq], ?_, ?_⟩
        · unfold receive_ack
          rw [hp1]
          dsimp only
          rw [if_neg hc]
        · exact getD_set_self s.ack_received j true false hjlt

/-- C10 witness: on a fresh two-frame window, `seq = 2` raises and
`seq = -1` silently acknowledges frame 1. -/
theorem receive_ack_bounds_witness :
    receive_ack (init 2 1) 2 = none ∧
    ∃ a ev, receive_ack (init 2 1) (-1) = some (a, ev) ∧
      a.ack_received.getD (((init 2 1).total_frames : Int) + -1).toNat
        false = true := by
  have h := receive_ack_bounds (init 2 1) (by decide)
  exact ⟨h.1 2 (by decide), (h.2 (-1) (by decide) (by decide)).2⟩

end SRARQ
